import Mathlib

/-!
Verification of the `Vector<T>` dynamic array of this repository
(`advanced-vector/vector.h` and the two unnamed copies of the header).

The C++ class stores a `RawMemory<T> data_` (a raw buffer of `capacity_`
slots) and a count `size_` of live, constructed elements occupying the
slots `[0, size_)`.  The shallow embedding keeps exactly the externally
observable state of a vector:

* `elems` — the values of the live elements, in index order (so the
  logical size `size_` is `elems.length`);
* `cap`  — `data_.Capacity()`, the number of allocated slots.

Each member function of the C++ class is translated into a Lean function
on this state, following the source line by line (branch structure,
element transfers and capacity arithmetic).  Raw pointers become list
indices.  For the exception-safety material, element copy construction is
modelled by a "copy budget": a copy succeeds while the budget lasts and
the next copy throws, which is exactly the standard "throws on its k-th
invocation" test type; the fallible variants of the operations record the
observable state after a throw and the objects that were constructed in a
buffer which was then deallocated without their destructor running.
-/

namespace AdvVec

/-- State of a `Vector<T>`: `elems` are the live elements in the slots
`[0, size_)` of `data_` (so `elems.length` is `size_`), and `cap` is
`data_.Capacity()`. -/
structure Vector (α : Type) where
  elems : List α
  cap : Nat
deriving DecidableEq, Repr

/-- `Size()` — the number of live elements. -/
def Vector.Size (v : Vector α) : Nat :=
  v.elems.length

/-- `Capacity()` — the number of allocated slots. -/
def Vector.Capacity (v : Vector α) : Nat :=
  v.cap

/-- The class invariant: the live elements fit in the allocated slots,
`0 ≤ size_ ≤ capacity_` (the lower bound is implicit in `Nat`). -/
def Vector.Inv (v : Vector α) : Prop :=
  v.elems.length ≤ v.cap

instance (v : Vector α) : Decidable v.Inv :=
  inferInstanceAs (Decidable (v.elems.length ≤ v.cap))

/-- `Vector() = default;` — empty vector, no storage. -/
def Vector.empty (α : Type) : Vector α :=
  ⟨[], 0⟩

/-- `explicit Vector(size_t size)` — allocates exactly `size` slots and
value-initializes `size` elements (`std::uninitialized_value_construct_n`). -/
def Vector.ofSize (α : Type) [Inhabited α] (size : Nat) : Vector α :=
  ⟨List.replicate size default, size⟩

/-- `Vector(const Vector& other)` — allocates exactly `other.size_` slots
and copy-constructs the `other.size_` elements. -/
def Vector.copyCtor (other : Vector α) : Vector α :=
  ⟨other.elems, other.Size⟩

/-- `Vector(Vector&& other) noexcept` — steals `other`'s storage
(`RawMemory` move constructor nulls the source) and exchanges
`other.size_` with `0`.  Returns (constructed vector, source afterwards). -/
def Vector.moveCtor (other : Vector α) : Vector α × Vector α :=
  (⟨other.elems, other.cap⟩, ⟨[], 0⟩)

/-- `void Swap(Vector& other) noexcept` — swaps `data_` and `size_`.
Returns the pair (this afterwards, other afterwards). -/
def Vector.Swap (self other : Vector α) : Vector α × Vector α :=
  (other, self)

/-- `Vector& operator=(Vector&& rhs) noexcept { Swap(rhs); return *this; }`.
Returns the pair (this afterwards, rhs afterwards). -/
def Vector.moveAssign (self rhs : Vector α) : Vector α × Vector α :=
  Vector.Swap self rhs

/-- `Vector& operator=(const Vector& other)` for distinct objects:
if `other.size_ <= data_.Capacity()` the buffer is reused — `std::copy`
assigns the overlapping prefix and either `std::uninitialized_copy_n`
constructs the extra suffix (`size_ <= other.size_`) or `std::destroy_n`
destroys the extra suffix; otherwise a fresh copy `Vector other_copy(other)`
is built and swapped in.  (When `this == &other` the C++ code skips the
body; at the value level the fitting branch below is the identity in that
case, which the self-assignment conjunct of C6 records.) -/
def Vector.copyAssign (self other : Vector α) : Vector α :=
  if other.Size ≤ self.cap then
    if self.Size ≤ other.Size then
      ⟨other.elems.take self.Size ++ other.elems.drop self.Size, self.cap⟩
    else
      ⟨other.elems.take other.Size, self.cap⟩
  else
    (Vector.Swap self (Vector.copyCtor other)).1

/-- `void Reserve(size_t new_capacity)` — no-op when `new_capacity` does
not exceed the current capacity, otherwise transfers the `size_` live
elements into a fresh buffer of exactly `new_capacity` slots, destroys the
old ones and swaps storages (the transfer preserves the element values). -/
def Vector.Reserve (v : Vector α) (new_capacity : Nat) : Vector α :=
  if new_capacity ≤ v.cap then v
  else ⟨v.elems, new_capacity⟩

/-- `void Resize(size_t new_size)` — shrinking destroys the elements
`[new_size, size_)`; growing reserves and value-initializes the elements
`[size_, new_size)`; `new_size == size_` does nothing. -/
def Vector.Resize [Inhabited α] (v : Vector α) (new_size : Nat) : Vector α :=
  if new_size < v.Size then
    ⟨v.elems.take new_size, v.cap⟩
  else if v.Size < new_size then
    ⟨(v.Reserve new_size).elems ++ List.replicate (new_size - v.Size) default,
      (v.Reserve new_size).cap⟩
  else v

/-- `EmplaceBack(args...)` with the element value the arguments produce:
when `size_ == Capacity()` a new buffer of `size_ == 0 ? 1 : size_ * 2`
slots is filled (new element constructed at index `size_` first, the old
run transferred in front of it); otherwise the element is constructed in
place at slot `size_`.  `size_` is then incremented. -/
def Vector.EmplaceBack (v : Vector α) (x : α) : Vector α :=
  if v.Size = v.cap then
    ⟨v.elems ++ [x], if v.Size = 0 then 1 else v.Size * 2⟩
  else
    ⟨v.elems ++ [x], v.cap⟩

/-- `void PushBack(const T&)` / `void PushBack(T&&)` — both delegate to
`EmplaceBack`. -/
def Vector.PushBack (v : Vector α) (x : α) : Vector α :=
  v.EmplaceBack x

/-- A sequence of `PushBack`/`EmplaceBack` calls, one per element of `xs`,
left to right. -/
def pushList (v : Vector α) (xs : List α) : Vector α :=
  xs.foldl Vector.EmplaceBack v

/-- `void PopBack()` — `assert(Size()); Resize(Size() - 1);`. -/
def Vector.PopBack [Inhabited α] (v : Vector α) : Vector α :=
  v.Resize (v.Size - 1)

/-- The in-place branch of `Emplace` (`size_ < capacity`, `pos ≠ end`):
`T new_values(args...)` is built first, `*(end()-1)` is move-constructed
into the raw slot at `end()`, `std::move_backward` shifts `[pos, end()-1)`
one slot right, and the temporary is move-assigned into slot `pos`.
The buffer after those steps, in value terms. -/
def emplaceShiftBuf [Inhabited α] (e : List α) (i : Nat) (x : α) : List α :=
  e.take i ++ x :: ((e.drop i).dropLast ++ [e.getLast!])

/-- `iterator Emplace(const_iterator pos, Args&&... args)` with
`i = pos - begin()` and the element value the arguments produce.
Returns (vector afterwards, index of the returned iterator). -/
def Vector.Emplace [Inhabited α] (v : Vector α) (i : Nat) (x : α) :
    Vector α × Nat :=
  if i = v.Size then
    (v.EmplaceBack x, (v.EmplaceBack x).Size - 1)
  else if v.Size = v.cap then
    (⟨v.elems.take i ++ x :: v.elems.drop i,
       if v.Size = 0 then 1 else v.Size * 2⟩, i)
  else
    (⟨emplaceShiftBuf v.elems i x, v.cap⟩, i)

/-- `iterator Insert(const_iterator pos, const T& value)` /
`Insert(const_iterator pos, T&& value)` — both delegate to `Emplace`. -/
def Vector.Insert [Inhabited α] (v : Vector α) (i : Nat) (x : α) :
    Vector α × Nat :=
  v.Emplace i x

/-- `iterator Erase(const_iterator pos)` with `i = pos - begin()`:
`std::move` shifts `[i+1, size_)` one slot left (the last slot keeps its
moved-from object, in value terms its old value), then `PopBack()`.
Returns (vector afterwards, index of the returned iterator). -/
def Vector.Erase [Inhabited α] (v : Vector α) (i : Nat) : Vector α × Nat :=
  ((Vector.mk (v.elems.take i ++ (v.elems.drop (i + 1) ++ [v.elems.getLast!]))
      v.cap).PopBack, i)

/-!
Exception model.  The element type of interest for the strong-guarantee
material is one whose copy constructor can throw and whose move
constructor is not statically known non-throwing, so the transfer policy
(`MoveArgs` in the unnamed header, the inline `if constexpr` in
`vector.h`) takes the `std::uninitialized_copy_n` branch.  A "copy
budget" `b` means: the next `b` copy constructions succeed and the one
after that throws — the classical test type whose copy constructor
throws on its k-th invocation corresponds to `b = k - 1`.
-/

/-- Outcome of a fallible member function: `ok` is false when the call
exited with an exception, `post` is the externally observable state of
the vector after the call (as written to `data_` / `size_` by the code),
and `leaked` lists the objects that were constructed in a buffer that was
then deallocated without their destructor running. -/
structure ThrowResult (α : Type) where
  ok : Bool
  post : Vector α
  leaked : List α
deriving DecidableEq, Repr

/-- `std::uninitialized_copy_n` with a fallible element copy: elements are
copy-constructed one at a time; if one copy throws, every element already
constructed by this call is destroyed again before the exception
propagates (the standard rollback built into `uninitialized_copy_n`), so
the helper itself never leaks.  On success it returns the constructed run
and the remaining budget. -/
def uninitCopyN (budget : Nat) (src : List α) : Except Unit (List α × Nat) :=
  match src, budget with
  | [], b => .ok ([], b)
  | _ :: _, 0 => .error ()
  | x :: xs, Nat.succ b =>
    match uninitCopyN b xs with
    | .ok (ys, b2) => .ok (x :: ys, b2)
    | .error e => .error e

/-- `EmplaceBack` of the unnamed header (`src/unnamed/part_000`, lines
214–235), with a copy budget.  In the reallocating branch the new element
is constructed first (one copy), then `MoveArgs` copies the old run; a
throw inside `MoveArgs` is caught, `std::destroy_at` destroys the new
element, and the exception is rethrown, so the discarded buffer holds no
live object when `RawMemory`'s destructor frees it.  `data_` and `size_`
are only written after the transfer succeeds. -/
def EmplaceBackT000 (v : Vector α) (x : α) (budget : Nat) : ThrowResult α :=
  if v.Size = v.cap then
    match budget with
    | 0 => ⟨false, v, []⟩
    | Nat.succ b =>
      match uninitCopyN b v.elems with
      | .error _ => ⟨false, v, []⟩
      | .ok (ys, _) =>
        ⟨true, ⟨ys ++ [x], if v.Size = 0 then 1 else v.Size * 2⟩, []⟩
  else
    match budget with
    | 0 => ⟨false, v, []⟩
    | Nat.succ _ => ⟨true, ⟨v.elems ++ [x], v.cap⟩, []⟩

/-- `EmplaceBack` of `src/advanced-vector/vector.h` (lines 258–279), with
a copy budget.  Same shape, but there is no try/catch: when the
`std::uninitialized_copy_n` transfer throws, only the partial run it
constructed is rolled back — the new element already constructed at index
`size_` is never destroyed, and `new_data`'s destructor frees the buffer
without running destructors, so that object is leaked.  (`PushBack` in
that file, lines 212–254, has the same body with `args = value`.) -/
def EmplaceBackTHdr (v : Vector α) (x : α) (budget : Nat) : ThrowResult α :=
  if v.Size = v.cap then
    match budget with
    | 0 => ⟨false, v, []⟩
    | Nat.succ b =>
      match uninitCopyN b v.elems with
      | .error _ => ⟨false, v, [x]⟩
      | .ok (ys, _) =>
        ⟨true, ⟨ys ++ [x], if v.Size = 0 then 1 else v.Size * 2⟩, []⟩
  else
    match budget with
    | 0 => ⟨false, v, []⟩
    | Nat.succ _ => ⟨true, ⟨v.elems ++ [x], v.cap⟩, []⟩

/-- `Reserve` (identical in both headers), with a copy budget: when it
grows, the old run is copied into the fresh buffer by
`std::uninitialized_copy_n`, whose own rollback destroys the partial run
on a throw; `data_` and `size_` are only written after the transfer
succeeds, and nothing else was constructed in the new buffer. -/
def ReserveT (v : Vector α) (new_capacity budget : Nat) : ThrowResult α :=
  if new_capacity ≤ v.cap then ⟨true, v, []⟩
  else
    match uninitCopyN budget v.elems with
    | .error _ => ⟨false, v, []⟩
    | .ok (ys, _) => ⟨true, ⟨ys, new_capacity⟩, []⟩

/-- `operator=(const Vector&)` with a copy budget (assignments and copy
constructions both draw on the budget).  In the buffer-reuse branch the
`std::copy` prefix assignments happen one slot at a time, so a throw
there leaves a partially assigned prefix (and `size_` unchanged); the
suffix constructions are rolled back by `uninitialized_copy_n` itself.
In the fresh-copy branch `Vector other_copy(other)` performs all the
copies before `Swap` runs, so a throw leaves `*this` untouched. -/
def copyAssignT (self other : Vector α) (budget : Nat) : ThrowResult α :=
  if other.Size ≤ self.cap then
    if self.Size ≤ other.Size then
      if budget < self.Size then
        ⟨false, ⟨other.elems.take budget ++ self.elems.drop budget, self.cap⟩, []⟩
      else
        match uninitCopyN (budget - self.Size) (other.elems.drop self.Size) with
        | .error _ => ⟨false, ⟨other.elems.take self.Size, self.cap⟩, []⟩
        | .ok (ys, _) => ⟨true, ⟨other.elems.take self.Size ++ ys, self.cap⟩, []⟩
    else
      if budget < other.Size then
        ⟨false, ⟨other.elems.take budget ++ self.elems.drop budget, self.cap⟩, []⟩
      else
        ⟨true, ⟨other.elems.take other.Size, self.cap⟩, []⟩
  else
    match uninitCopyN budget other.elems with
    | .error _ => ⟨false, self, []⟩
    | .ok (ys, _) => ⟨true, ⟨ys, other.Size⟩, []⟩

/-- Outcome of the fallible `Emplace`.  `size_` and `cap` are the members
after the call; `live` lists the values of the elements of `data_`'s
slots `[0, size_)` that are still alive, in index order.  After a clean
call (success, or a failure that is a no-op) `live` covers all of
`[0, size_)`; the reallocating interior failure below leaves the slots
`[0, pos)` dead while `size_` still counts them, which shows up as
`live.length < size_`.  `leaked` is as in `ThrowResult`. -/
structure EmplaceThrowResult (α : Type) where
  ok : Bool
  size_ : Nat
  live : List α
  cap : Nat
  leaked : List α
deriving DecidableEq, Repr

/-- `Emplace` of the unnamed header (`src/unnamed/part_000`, lines
294–331) with a copy budget, for the copy-only throwing element type
(move assignments and move constructions of the in-place shift do not
throw for that test type, so only copy constructions draw on the budget).
Branches, in source order: `pos == end()` delegates to `EmplaceBack`;
the reallocating branch constructs the new element at index `pos` (one
copy), then `MoveArgs(begin(), pos, …)` — which copies the left
partition and **then destroys the old originals `[0, pos)`** via its
trailing `std::destroy_n` — then `MoveArgs(begin()+pos, size_-pos, …)`.
A throw in the first `MoveArgs` happens inside its `uninitialized_copy_n`
(before its `destroy_n`), so that failure is a no-op; a throw in the
second leaves the old slots `[0, pos)` already dead with `size_`
unchanged — the corrupted state recorded below.  The in-place branch
builds the temporary first (one copy), so its only throw point for this
type leaves the vector untouched. -/
def EmplaceT000 [Inhabited α] (v : Vector α) (i : Nat) (x : α)
    (budget : Nat) : EmplaceThrowResult α :=
  if i = v.Size then
    ⟨(EmplaceBackT000 v x budget).ok, (EmplaceBackT000 v x budget).post.Size,
     (EmplaceBackT000 v x budget).post.elems,
     (EmplaceBackT000 v x budget).post.cap, (EmplaceBackT000 v x budget).leaked⟩
  else if v.Size = v.cap then
    match budget with
    | 0 => ⟨false, v.Size, v.elems, v.cap, []⟩
    | Nat.succ b =>
      match uninitCopyN b (v.elems.take i) with
      | .error _ => ⟨false, v.Size, v.elems, v.cap, []⟩
      | .ok (ys1, b2) =>
        match uninitCopyN b2 (v.elems.drop i) with
        | .error _ => ⟨false, v.Size, v.elems.drop i, v.cap, []⟩
        | .ok (ys2, _) =>
          ⟨true, v.Size + 1, ys1 ++ x :: ys2,
            if v.Size = 0 then 1 else v.Size * 2, []⟩
  else
    match budget with
    | 0 => ⟨false, v.Size, v.elems, v.cap, []⟩
    | Nat.succ _ => ⟨true, v.Size + 1, emplaceShiftBuf v.elems i x, v.cap, []⟩

/-! Helper lemmas. -/

theorem getLast?_eq_some_getLastBang [Inhabited α] (l : List α) (h : l ≠ []) :
    l.getLast? = some l.getLast! := by
  cases l with
  | nil => exact absurd rfl h
  | cons a t => rw [List.getLast?_cons, List.getLast!_cons, List.getLastD_eq_getLast?]

theorem dropLast_append_getLastBang [Inhabited α] (l : List α) (h : l ≠ []) :
    l.dropLast ++ [l.getLast!] = l := by
  have h2 : l.getLast! = l.getLast h := by
    have h3 := getLast?_eq_some_getLastBang l h
    rw [List.getLast?_eq_getLast l h] at h3
    exact (Option.some_inj.mp h3).symm
  rw [h2]
  exact List.dropLast_append_getLast h

theorem drop_dropLast_getLastBang [Inhabited α] (e : List α) (i : Nat)
    (h : i < e.length) : (e.drop i).dropLast ++ [e.getLast!] = e.drop i := by
  have hne : e.drop i ≠ [] := by
    intro hcon
    rw [List.drop_eq_nil_iff] at hcon
    omega
  have hene : e ≠ [] := by
    intro hc
    subst hc
    simp at h
  have h1 : e.getLast! = (e.drop i).getLast! := by
    have ha := getLast?_eq_some_getLastBang (e.drop i) hne
    have hb := getLast?_eq_some_getLastBang e hene
    rw [List.getLast?_drop, if_neg (by omega)] at ha
    rw [ha] at hb
    exact (Option.some_inj.mp hb).symm
  rw [h1]
  exact dropLast_append_getLastBang _ hne

theorem emplaceShiftBuf_eq [Inhabited α] (e : List α) (i : Nat) (x : α)
    (h : i < e.length) :
    emplaceShiftBuf e i x = e.take i ++ x :: e.drop i := by
  unfold emplaceShiftBuf
  rw [drop_dropLast_getLastBang e i h]

theorem uninitCopyN_ok : ∀ (src : List α) (b : Nat), src.length ≤ b →
    uninitCopyN b src = .ok (src, b - src.length) := by
  intro src
  induction src with
  | nil => intro b _; simp [uninitCopyN]
  | cons x xs ih =>
    intro b hb
    match b with
    | Nat.succ b' =>
      have : xs.length ≤ b' := by simpa using hb
      simp [uninitCopyN, ih b' this, Nat.succ_sub_succ]

theorem uninitCopyN_err : ∀ (src : List α) (b : Nat), b < src.length →
    uninitCopyN b src = .error () := by
  intro src
  induction src with
  | nil => intro b hb; simp at hb
  | cons x xs ih =>
    intro b hb
    match b with
    | 0 => rfl
    | Nat.succ b' =>
      have : b' < xs.length := by simpa using hb
      simp [uninitCopyN, ih b' this]

theorem uninitCopyN_ok_inv (src : List α) (b : Nat) (ys : List α) (b2 : Nat)
    (h : uninitCopyN b src = .ok (ys, b2)) : ys = src := by
  by_cases hle : src.length ≤ b
  · rw [uninitCopyN_ok src b hle] at h
    injection h with hp
    exact (congrArg Prod.fst hp).symm
  · rw [uninitCopyN_err src b (by omega)] at h
    simp at h

theorem Reserve_elems (v : Vector α) (n : Nat) : (v.Reserve n).elems = v.elems := by
  unfold Vector.Reserve
  split <;> rfl

theorem Reserve_cap (v : Vector α) (n : Nat) :
    (v.Reserve n).cap = if n ≤ v.cap then v.cap else n := by
  unfold Vector.Reserve
  split <;> rfl

theorem EmplaceBack_elems (v : Vector α) (x : α) :
    (v.EmplaceBack x).elems = v.elems ++ [x] := by
  unfold Vector.EmplaceBack
  split <;> rfl

theorem EmplaceBack_cap (v : Vector α) (x : α) :
    (v.EmplaceBack x).cap = if v.Size = v.cap then max 1 (2 * v.cap) else v.cap := by
  unfold Vector.EmplaceBack
  by_cases h : v.Size = v.cap
  · simp only [if_pos h]
    rw [← h]
    by_cases h0 : v.Size = 0
    · simp [h0]
    · rw [if_neg h0]
      omega
  · simp [h]

theorem pushList_append_one (v : Vector α) (xs : List α) (x : α) :
    pushList v (xs ++ [x]) = (pushList v xs).EmplaceBack x := by
  simp [pushList, List.foldl_append]

theorem pushList_spec (α : Type) (xs : List α) :
    (pushList (Vector.empty α) xs).elems = xs ∧
    (xs = [] → (pushList (Vector.empty α) xs).cap = 0) ∧
    (xs ≠ [] → ∃ k, (pushList (Vector.empty α) xs).cap = 2 ^ k ∧
      xs.length ≤ 2 ^ k ∧ 2 ^ k < 2 * xs.length) := by
  induction xs using List.reverseRecOn with
  | nil => exact ⟨rfl, fun _ => rfl, fun h => absurd rfl h⟩
  | append_singleton xs x ih =>
    obtain ⟨ihe, ihz, ihg⟩ := ih
    rw [pushList_append_one]
    refine ⟨?_, ?_, ?_⟩
    · rw [EmplaceBack_elems, ihe]
    · intro h
      simp at h
    · intro _
      by_cases hxs : xs = []
      · subst hxs
        exact ⟨0, by simp [pushList, Vector.empty, Vector.EmplaceBack, Vector.Size], by simp, by simp⟩
      · obtain ⟨k, hk, hle, hlt⟩ := ihg hxs
        have hsz : (pushList (Vector.empty α) xs).Size = xs.length := by
          unfold Vector.Size
          rw [ihe]
        have hlen1 : 1 ≤ xs.length := List.length_pos.mpr hxs
        have hp : 0 < 2 ^ k := Nat.two_pow_pos k
        have hxlen : (xs ++ [x]).length = xs.length + 1 := by simp
        rw [EmplaceBack_cap, hsz, hk, hxlen]
        by_cases hfull : xs.length = 2 ^ k
        · rw [if_pos hfull]
          refine ⟨k + 1, ?_, ?_, ?_⟩ <;> (rw [pow_succ]; omega)
        · rw [if_neg hfull]
          exact ⟨k, rfl, by omega, by omega⟩

theorem pushList_no_grow :
    ∀ (xs : List α) (v : Vector α), v.Size + xs.length ≤ v.cap →
    (pushList v xs).cap = v.cap ∧ (pushList v xs).elems = v.elems ++ xs := by
  intro xs
  induction xs with
  | nil => intro v _; exact ⟨rfl, by simp [pushList]⟩
  | cons x xs ih =>
    intro v hv
    have hlt : v.Size < v.cap := by
      simp only [List.length_cons] at hv
      omega
    have hstep : v.EmplaceBack x = ⟨v.elems ++ [x], v.cap⟩ := by
      unfold Vector.EmplaceBack
      rw [if_neg (by omega)]
    have hsz : (v.EmplaceBack x).Size = v.Size + 1 := by
      rw [hstep]
      simp [Vector.Size]
    have hcap : (v.EmplaceBack x).cap = v.cap := by rw [hstep]
    have h2 : (v.EmplaceBack x).Size + xs.length ≤ (v.EmplaceBack x).cap := by
      rw [hsz, hcap]
      simp only [List.length_cons] at hv
      omega
    have hfold : pushList v (x :: xs) = pushList (v.EmplaceBack x) xs := rfl
    obtain ⟨c1, c2⟩ := ih (v.EmplaceBack x) h2
    rw [hfold, c1, c2, hcap, hstep]
    simp

theorem Erase_fst [Inhabited α] (v : Vector α) (i : Nat) (h : i < v.Size) :
    (v.Erase i).1 = ⟨v.elems.take i ++ v.elems.drop (i + 1), v.cap⟩ := by
  have hn : i < v.elems.length := h
  have hlen2 : (v.elems.take i ++ v.elems.drop (i + 1)).length = v.elems.length - 1 := by
    simp
    omega
  show (Vector.mk (v.elems.take i ++ (v.elems.drop (i + 1) ++ [v.elems.getLast!]))
      v.cap).PopBack = _
  unfold Vector.PopBack Vector.Resize
  have hsz : (Vector.mk (v.elems.take i ++ (v.elems.drop (i + 1) ++ [v.elems.getLast!]))
      v.cap).Size = v.elems.length := by
    simp [Vector.Size]
    omega
  rw [hsz, if_pos (by omega)]
  have htake : (v.elems.take i ++ (v.elems.drop (i + 1) ++ [v.elems.getLast!])).take
      (v.elems.length - 1) = v.elems.take i ++ v.elems.drop (i + 1) := by
    rw [← List.append_assoc]
    exact List.take_left' hlen2
  simp only [htake]

theorem Emplace_spec [Inhabited α] (v : Vector α) (i : Nat) (x : α) (h : i ≤ v.Size) :
    (v.Emplace i x).1.elems = v.elems.take i ++ x :: v.elems.drop i ∧
    (v.Emplace i x).2 = i := by
  unfold Vector.Emplace
  by_cases h1 : i = v.Size
  · rw [if_pos h1]
    subst h1
    constructor
    · rw [EmplaceBack_elems]
      show _ = v.elems.take v.elems.length ++ x :: v.elems.drop v.elems.length
      simp
    · show (v.EmplaceBack x).Size - 1 = v.Size
      unfold Vector.Size
      rw [EmplaceBack_elems]
      simp [Vector.Size]
  · have h2 : i < v.Size := lt_of_le_of_ne h h1
    rw [if_neg h1]
    by_cases h3 : v.Size = v.cap
    · rw [if_pos h3]
      exact ⟨rfl, rfl⟩
    · rw [if_neg h3]
      exact ⟨emplaceShiftBuf_eq v.elems i x h2, rfl⟩

/-! Invariant preservation, one lemma per operation. -/

theorem Inv_empty (α : Type) : (Vector.empty α).Inv := Nat.le_refl 0

theorem Inv_ofSize (α : Type) [Inhabited α] (n : Nat) : (Vector.ofSize α n).Inv := by
  simp [Vector.Inv, Vector.ofSize]

theorem Inv_copyCtor (v : Vector α) : v.copyCtor.Inv := Nat.le_refl _

theorem Inv_copyAssign (a b : Vector α) : (a.copyAssign b).Inv := by
  unfold Vector.copyAssign Vector.Inv
  by_cases h1 : b.Size ≤ a.cap
  · rw [if_pos h1]
    unfold Vector.Size at h1
    by_cases h2 : a.Size ≤ b.Size
    · rw [if_pos h2]
      simpa using h1
    · rw [if_neg h2]
      simp [Vector.Size]
      omega
  · rw [if_neg h1]
    exact Nat.le_refl _

theorem Inv_Reserve (v : Vector α) (n : Nat) (hv : v.Inv) : (v.Reserve n).Inv := by
  unfold Vector.Reserve Vector.Inv
  unfold Vector.Inv at hv
  split
  · exact hv
  · simp only []
    omega

theorem Inv_Resize [Inhabited α] (v : Vector α) (n : Nat) (hv : v.Inv) :
    (v.Resize n).Inv := by
  unfold Vector.Inv at hv
  unfold Vector.Resize Vector.Size Vector.Inv
  by_cases h1 : n < v.elems.length
  · rw [if_pos h1]
    simp
    omega
  · rw [if_neg h1]
    by_cases h2 : v.elems.length < n
    · rw [if_pos h2]
      rw [Reserve_elems, Reserve_cap]
      simp
      split <;> omega
    · rw [if_neg h2]
      exact hv

theorem Inv_EmplaceBack (v : Vector α) (x : α) (hv : v.Inv) :
    (v.EmplaceBack x).Inv := by
  unfold Vector.Inv at hv
  unfold Vector.EmplaceBack Vector.Size Vector.Inv
  by_cases h1 : v.elems.length = v.cap
  · rw [if_pos h1]
    simp
    split <;> omega
  · rw [if_neg h1]
    simp
    omega

theorem Inv_Emplace [Inhabited α] (v : Vector α) (i : Nat) (x : α) (hv : v.Inv)
    (h : i ≤ v.Size) : (v.Emplace i x).1.Inv := by
  unfold Vector.Emplace
  by_cases h1 : i = v.Size
  · rw [if_pos h1]
    exact Inv_EmplaceBack v x hv
  · have h2 : i < v.Size := lt_of_le_of_ne h h1
    rw [if_neg h1]
    unfold Vector.Inv at hv
    unfold Vector.Size at h2
    by_cases h3 : v.Size = v.cap
    · rw [if_pos h3]
      unfold Vector.Size at h3
      unfold Vector.Inv Vector.Size
      simp
      split <;> omega
    · rw [if_neg h3]
      unfold Vector.Size at h3
      unfold Vector.Inv
      rw [emplaceShiftBuf_eq v.elems i x h2]
      simp
      omega

theorem Inv_Erase [Inhabited α] (v : Vector α) (i : Nat) (hv : v.Inv)
    (h : i < v.Size) : (v.Erase i).1.Inv := by
  rw [Erase_fst v i h]
  unfold Vector.Inv at hv
  unfold Vector.Size at h
  unfold Vector.Inv
  simp
  omega

/-! Failure behaviour of the fallible operations. -/

theorem EmplaceBackT000_fail (v : Vector α) (x : α) (budget : Nat) :
    (EmplaceBackT000 v x budget).ok = false →
    (EmplaceBackT000 v x budget).post = v ∧
    (EmplaceBackT000 v x budget).leaked = [] := by
  unfold EmplaceBackT000
  by_cases h : v.Size = v.cap
  · rw [if_pos h]
    match budget with
    | 0 => exact fun _ => ⟨rfl, rfl⟩
    | Nat.succ b =>
      cases hc : uninitCopyN b v.elems with
      | error e => simp [hc]
      | ok p =>
        obtain ⟨ys, b2⟩ := p
        simp [hc]
  · rw [if_neg h]
    match budget with
    | 0 => exact fun _ => ⟨rfl, rfl⟩
    | Nat.succ b => simp

theorem EmplaceBackTHdr_fail_post (v : Vector α) (x : α) (budget : Nat) :
    (EmplaceBackTHdr v x budget).ok = false →
    (EmplaceBackTHdr v x budget).post = v := by
  unfold EmplaceBackTHdr
  by_cases h : v.Size = v.cap
  · rw [if_pos h]
    match budget with
    | 0 => exact fun _ => rfl
    | Nat.succ b =>
      cases hc : uninitCopyN b v.elems with
      | error e => simp [hc]
      | ok p =>
        obtain ⟨ys, b2⟩ := p
        simp [hc]
  · rw [if_neg h]
    match budget with
    | 0 => exact fun _ => rfl
    | Nat.succ b => simp

theorem ReserveT_fail (v : Vector α) (n budget : Nat) :
    (ReserveT v n budget).ok = false →
    (ReserveT v n budget).post = v ∧ (ReserveT v n budget).leaked = [] := by
  unfold ReserveT
  by_cases h : n ≤ v.cap
  · rw [if_pos h]
    simp
  · rw [if_neg h]
    cases hc : uninitCopyN budget v.elems with
    | error e => simp [hc]
    | ok p =>
      obtain ⟨ys, b2⟩ := p
      simp [hc]

theorem copyAssignT_fresh_fail (a b : Vector α) (budget : Nat)
    (hfit : ¬ b.Size ≤ a.cap) (hb : budget < b.Size) :
    copyAssignT a b budget = ⟨false, a, []⟩ := by
  unfold copyAssignT
  rw [if_neg hfit, uninitCopyN_err b.elems budget hb]

theorem copyAssignT_fail (v w : Vector α) (budget : Nat) :
    (copyAssignT v w budget).ok = false →
    (copyAssignT v w budget).post.Size = v.Size ∧
    (copyAssignT v w budget).post.cap = v.cap := by
  unfold copyAssignT Vector.Size
  by_cases h1 : w.elems.length ≤ v.cap
  · rw [if_pos h1]
    by_cases h2 : v.elems.length ≤ w.elems.length
    · rw [if_pos h2]
      by_cases h3 : budget < v.elems.length
      · rw [if_pos h3]
        intro _
        refine ⟨?_, rfl⟩
        simp
        omega
      · rw [if_neg h3]
        cases hc : uninitCopyN (budget - v.elems.length) (w.elems.drop v.elems.length) with
        | error e =>
          intro _
          refine ⟨?_, rfl⟩
          show (w.elems.take v.elems.length).length = v.elems.length
          rw [List.length_take]
          omega
        | ok p =>
          obtain ⟨ys, b2⟩ := p
          simp [hc]
    · rw [if_neg h2]
      by_cases h3 : budget < w.elems.length
      · rw [if_pos h3]
        intro _
        refine ⟨?_, rfl⟩
        simp
        omega
      · rw [if_neg h3]
        simp
  · rw [if_neg h1]
    cases hc : uninitCopyN budget w.elems with
    | error e =>
      exact fun _ => ⟨rfl, rfl⟩
    | ok p =>
      obtain ⟨ys, b2⟩ := p
      simp [hc]

theorem EmplaceBackT000_ok (v : Vector α) (x : α) (budget : Nat) :
    (EmplaceBackT000 v x budget).ok = true →
    (EmplaceBackT000 v x budget).post = v.EmplaceBack x ∧
    (EmplaceBackT000 v x budget).leaked = [] := by
  unfold EmplaceBackT000 Vector.EmplaceBack
  by_cases h : v.Size = v.cap
  · rw [if_pos h, if_pos h]
    match budget with
    | 0 =>
      intro hc
      simp at hc
    | Nat.succ b =>
      cases hc : uninitCopyN b v.elems with
      | error e => simp [hc]
      | ok p =>
        obtain ⟨ys, b2⟩ := p
        have hys : ys = v.elems := uninitCopyN_ok_inv v.elems b ys b2 hc
        subst hys
        simp [hc]
  · rw [if_neg h, if_neg h]
    match budget with
    | 0 =>
      intro hc
      simp at hc
    | Nat.succ b => simp

theorem EmplaceT000_ok_refines [Inhabited α] (v : Vector α) (i : Nat) (x : α)
    (budget : Nat) (h : i ≤ v.Size) :
    (EmplaceT000 v i x budget).ok = true →
    (EmplaceT000 v i x budget).live = (v.Emplace i x).1.elems ∧
    (EmplaceT000 v i x budget).size_ = (v.Emplace i x).1.Size ∧
    (EmplaceT000 v i x budget).cap = (v.Emplace i x).1.cap ∧
    (EmplaceT000 v i x budget).leaked = [] := by
  unfold EmplaceT000 Vector.Emplace
  by_cases h1 : i = v.Size
  · rw [if_pos h1, if_pos h1]
    intro hok
    have hok2 : (EmplaceBackT000 v x budget).ok = true := hok
    obtain ⟨hpost, hleak⟩ := EmplaceBackT000_ok v x budget hok2
    rw [hpost, hleak]
    exact ⟨rfl, rfl, rfl, rfl⟩
  · have h2 : i < v.Size := lt_of_le_of_ne h h1
    have h2l : i < v.elems.length := h2
    rw [if_neg h1, if_neg h1]
    by_cases h3 : v.Size = v.cap
    · rw [if_pos h3, if_pos h3]
      match budget with
      | 0 =>
        intro hc
        simp at hc
      | Nat.succ b =>
        cases hc1 : uninitCopyN b (v.elems.take i) with
        | error e => simp [hc1]
        | ok p =>
          obtain ⟨ys1, b2⟩ := p
          have hys1 : ys1 = v.elems.take i :=
            uninitCopyN_ok_inv (v.elems.take i) b ys1 b2 hc1
          cases hc2 : uninitCopyN b2 (v.elems.drop i) with
          | error e => simp [hc1, hc2]
          | ok q =>
            obtain ⟨ys2, b3⟩ := q
            have hys2 : ys2 = v.elems.drop i :=
              uninitCopyN_ok_inv (v.elems.drop i) b2 ys2 b3 hc2
            subst hys1
            subst hys2
            intro _
            simp [hc1, hc2, Vector.Size]
            try omega
    · rw [if_neg h3, if_neg h3]
      match budget with
      | 0 =>
        intro hc
        simp at hc
      | Nat.succ b =>
        intro _
        refine ⟨rfl, ?_, rfl, rfl⟩
        show v.Size + 1 = (Vector.mk (emplaceShiftBuf v.elems i x) v.cap).Size
        unfold Vector.Size
        rw [emplaceShiftBuf_eq v.elems i x h2l]
        simp
        omega

theorem EmplaceT000_fail [Inhabited α] (v : Vector α) (i : Nat) (x : α)
    (budget : Nat) :
    (EmplaceT000 v i x budget).ok = false →
    (EmplaceT000 v i x budget).leaked = [] ∧
    (EmplaceT000 v i x budget).size_ = v.Size ∧
    (EmplaceT000 v i x budget).cap = v.cap ∧
    ((EmplaceT000 v i x budget).live = v.elems ∨
     (EmplaceT000 v i x budget).live = v.elems.drop i) := by
  unfold EmplaceT000
  by_cases h1 : i = v.Size
  · rw [if_pos h1]
    intro hfail
    have hfail2 : (EmplaceBackT000 v x budget).ok = false := hfail
    obtain ⟨hpost, hleak⟩ := EmplaceBackT000_fail v x budget hfail2
    rw [hpost, hleak]
    exact ⟨rfl, rfl, rfl, Or.inl rfl⟩
  · rw [if_neg h1]
    by_cases h3 : v.Size = v.cap
    · rw [if_pos h3]
      match budget with
      | 0 => intro _; exact ⟨rfl, rfl, rfl, Or.inl rfl⟩
      | Nat.succ b =>
        cases hc1 : uninitCopyN b (v.elems.take i) with
        | error e => simp [hc1]
        | ok p =>
          obtain ⟨ys1, b2⟩ := p
          cases hc2 : uninitCopyN b2 (v.elems.drop i) with
          | error e => simp [hc1, hc2]
          | ok q =>
            obtain ⟨ys2, b3⟩ := q
            simp [hc1, hc2]
    · rw [if_neg h3]
      match budget with
      | 0 => intro _; exact ⟨rfl, rfl, rfl, Or.inl rfl⟩
      | Nat.succ b => simp

/-! Claim theorems. -/

/-- C1: the claim demands the strong guarantee and absence of leaks for a
throwing reallocating `EmplaceBack`/`PushBack`/`Reserve`.  At this concrete
failing input — a full vector of one element, a copy budget of 1, so the
new element is constructed and the transfer of the old element throws —
the `vector.h` variant of `EmplaceBack` leaves the vector's state intact
but never destroys the new element it had constructed in the discarded
buffer (`leaked = [5]`), while the unnamed header's variant (whose
try/catch implements the spec's rollback) destroys it and leaks nothing,
and `Reserve` leaks nothing as well. -/
theorem claim_C1_vectorh_emplaceback_leak :
    (EmplaceBackTHdr (Vector.mk [7] 1) 5 1).ok = false ∧
    (EmplaceBackTHdr (Vector.mk [7] 1) 5 1).post = Vector.mk [7] 1 ∧
    (EmplaceBackTHdr (Vector.mk [7] 1) 5 1).leaked = [5] ∧
    (EmplaceBackT000 (Vector.mk [7] 1) 5 1).ok = false ∧
    (EmplaceBackT000 (Vector.mk [7] 1) 5 1).post = Vector.mk [7] 1 ∧
    (EmplaceBackT000 (Vector.mk [7] 1) 5 1).leaked = [] ∧
    (ReserveT (Vector.mk [7] 1) 2 0).ok = false ∧
    (ReserveT (Vector.mk [7] 1) 2 0).post = Vector.mk [7] 1 ∧
    (ReserveT (Vector.mk [7] 1) 2 0).leaked = [] := by
  decide

/-- C2 counterexample: move-assigning `a` (one element) into `b` (two
elements) leaves the source `a` with `b`'s former state — two elements and
capacity 4 — so `a.Size = 0 ∧ a.cap = 0` fails, refuting the claim that
move assignment always empties the source. -/
theorem claim_C2_counterexample :
    ¬ (((Vector.mk [2, 3] 4).moveAssign (Vector.mk [1] 1)).2.Size = 0 ∧
       ((Vector.mk [2, 3] 4).moveAssign (Vector.mk [1] 1)).2.cap = 0) := by
  decide

/-- C2 amended: move construction leaves the source empty (size 0,
capacity 0) and the new vector holds the source's former state; move
assignment `b = move(a)` is a swap, so afterwards `a` holds `b`'s former
state and is empty exactly when `b` was. -/
theorem claim_C2_move_amended (α : Type) (a b : Vector α) :
    (Vector.moveCtor a).2.Size = 0 ∧
    (Vector.moveCtor a).2.cap = 0 ∧
    (Vector.moveCtor a).1 = a ∧
    Vector.moveAssign b a = (a, b) ∧
    ((Vector.moveAssign b a).2.Size = 0 ↔ b.Size = 0) ∧
    ((Vector.moveAssign b a).2.cap = 0 ↔ b.cap = 0) :=
  ⟨rfl, rfl, rfl, rfl, Iff.rfl, Iff.rfl⟩

/-- C3: move assignment exchanges the two states completely — after
`b = move(a)`, `b` holds `a`'s former elements, size and capacity and `a`
holds `b`'s former ones — and self-move-assignment leaves the vector
unchanged. -/
theorem claim_C3_move_assign_swaps (α : Type) (a b : Vector α) :
    (Vector.moveAssign b a).1 = a ∧
    (Vector.moveAssign b a).2 = b ∧
    Vector.moveAssign b b = (b, b) :=
  ⟨rfl, rfl, rfl⟩

/-- C4: an append reallocates exactly when `size == capacity`, and then
the new capacity is `max(1, 2*capacity)`; pushing the elements of `xs`
onto an empty default-constructed vector yields size `xs.length` and, for
nonempty `xs`, a capacity that is the least power of two ≥ `xs.length`
(equivalently: the doubling sequence 1, 2, 4, 8, …). -/
theorem claim_C4_growth_policy (α : Type) (v : Vector α) (x : α) (xs : List α) :
    ((v.EmplaceBack x).cap = if v.Size = v.cap then max 1 (2 * v.cap) else v.cap) ∧
    (v.Size ≠ v.cap → (v.EmplaceBack x).cap = v.cap) ∧
    (pushList (Vector.empty α) xs).Size = xs.length ∧
    (xs = [] → (pushList (Vector.empty α) xs).cap = 0) ∧
    (xs ≠ [] → ∃ k, (pushList (Vector.empty α) xs).cap = 2 ^ k ∧
      xs.length ≤ 2 ^ k ∧ 2 ^ k < 2 * xs.length) := by
  obtain ⟨he, hz, hg⟩ := pushList_spec α xs
  refine ⟨EmplaceBack_cap v x, ?_, ?_, hz, hg⟩
  · intro hne
    rw [EmplaceBack_cap, if_neg hne]
  · unfold Vector.Size
    rw [he]

/-- C4 witness: pushing 1, 2, 3 onto an empty vector gives size 3 and
capacity 4 = 2², the least power of two ≥ 3. -/
theorem claim_C4_growth_policy_witness :
    (pushList (Vector.empty Nat) [1, 2, 3]).Size = 3 ∧
    (pushList (Vector.empty Nat) [1, 2, 3]).cap = 4 ∧
    ∃ k, (pushList (Vector.empty Nat) [1, 2, 3]).cap = 2 ^ k ∧
      3 ≤ 2 ^ k ∧ 2 ^ k < 6 := by
  have h := claim_C4_growth_policy Nat (Vector.empty Nat) 0 [1, 2, 3]
  exact ⟨h.2.2.1, by decide, h.2.2.2.2 (by decide)⟩

/-- C5: `Emplace`/`Insert` at index `i ≤ size` yields the contents with
`x` inserted at position `i`, size one larger, and returns the index `i`;
`Insert` delegates to `Emplace`, and insertion at `i = size` delegates to
the append path (`EmplaceBack`). -/
theorem claim_C5_insert_spec (α : Type) [Inhabited α] (v : Vector α) (i : Nat)
    (x : α) (h : i ≤ v.Size) :
    (v.Emplace i x).1.elems = v.elems.take i ++ x :: v.elems.drop i ∧
    (v.Emplace i x).1.Size = v.Size + 1 ∧
    (v.Emplace i x).2 = i ∧
    v.Insert i x = v.Emplace i x ∧
    (i = v.Size → v.Emplace i x = (v.EmplaceBack x, (v.EmplaceBack x).Size - 1)) := by
  obtain ⟨he, hr⟩ := Emplace_spec v i x h
  refine ⟨he, ?_, hr, rfl, ?_⟩
  · unfold Vector.Size at h ⊢
    rw [he]
    simp
    omega
  · intro h1
    unfold Vector.Emplace
    rw [if_pos h1]

/-- C5 witness: inserting 9 at index 1 of `[1,2,3]` gives `[1,9,2,3]`,
size 4, and the returned iterator points at index 1. -/
theorem claim_C5_insert_spec_witness :
    ((Vector.mk [1, 2, 3] 4).Emplace 1 9).1.elems = [1, 9, 2, 3] ∧
    ((Vector.mk [1, 2, 3] 4).Emplace 1 9).1.Size = 4 ∧
    ((Vector.mk [1, 2, 3] 4).Emplace 1 9).2 = 1 := by
  have h := claim_C5_insert_spec Nat (Vector.mk [1, 2, 3] 4) 1 9 (by decide)
  exact ⟨by rw [h.1]; rfl, h.2.1, h.2.2.1⟩

/-- C6: after `a = b` the target holds `b`'s elements and size; when `b`
fits in `a`'s capacity the buffer is reused (capacity unchanged),
otherwise the fresh copy's capacity is exactly `b.Size`; self-assignment
is the identity; and when the fresh-copy path throws before finishing,
`a` is untouched and nothing is leaked. -/
theorem claim_C6_copy_assign_spec (α : Type) (a b : Vector α) (budget : Nat)
    (ha : a.Inv) :
    (a.copyAssign b).elems = b.elems ∧
    (a.copyAssign b).Size = b.Size ∧
    (b.Size ≤ a.cap → (a.copyAssign b).cap = a.cap) ∧
    (¬ b.Size ≤ a.cap → (a.copyAssign b).cap = b.Size) ∧
    a.copyAssign a = a ∧
    (¬ b.Size ≤ a.cap → budget < b.Size →
      copyAssignT a b budget = ⟨false, a, []⟩) := by
  have helems : (a.copyAssign b).elems = b.elems := by
    unfold Vector.copyAssign
    by_cases h1 : b.Size ≤ a.cap
    · rw [if_pos h1]
      by_cases h2 : a.Size ≤ b.Size
      · rw [if_pos h2]
        exact List.take_append_drop _ _
      · rw [if_neg h2]
        exact List.take_length b.elems
    · rw [if_neg h1]
      rfl
  refine ⟨helems, ?_, ?_, ?_, ?_, copyAssignT_fresh_fail a b budget⟩
  · unfold Vector.Size
    rw [helems]
  · intro h1
    unfold Vector.copyAssign
    rw [if_pos h1]
    by_cases h2 : a.Size ≤ b.Size
    · rw [if_pos h2]
    · rw [if_neg h2]
  · intro h1
    unfold Vector.copyAssign
    rw [if_neg h1]
    rfl
  · have ha2 : a.Size ≤ a.cap := ha
    unfold Vector.copyAssign
    rw [if_pos ha2, if_pos (Nat.le_refl a.Size)]
    show Vector.mk (a.elems.take a.Size ++ a.elems.drop a.Size) a.cap = a
    rw [List.take_append_drop]

/-- C6 witness: assigning a three-element vector into a one-slot vector
takes the fresh-copy path (capacity becomes 3), and with a copy budget of
1 the fresh copy throws and the target is untouched with nothing leaked. -/
theorem claim_C6_copy_assign_spec_witness :
    ((Vector.mk [1] 1).copyAssign (Vector.mk [4, 5, 6] 3)).elems = [4, 5, 6] ∧
    ((Vector.mk [1] 1).copyAssign (Vector.mk [4, 5, 6] 3)).cap = 3 ∧
    copyAssignT (Vector.mk [1] 1) (Vector.mk [4, 5, 6] 3) 1 =
      ⟨false, Vector.mk [1] 1, []⟩ := by
  have h := claim_C6_copy_assign_spec Nat (Vector.mk [1] 1)
    (Vector.mk [4, 5, 6] 3) 1 (by decide)
  exact ⟨h.1, h.2.2.2.1 (by decide), h.2.2.2.2.2 (by decide) (by decide)⟩

/-- C7 counterexample: on a full vector of two elements, `Reserve 3`
followed by only two pushes (2 ≤ n = 3) already reallocates — the
capacity grows from 3 to 6 — refuting "after Reserve(n), up to n
subsequent pushes never reallocate" for nonempty vectors. -/
theorem claim_C7_counterexample :
    ((Vector.mk [1, 2] 2).Reserve 3).cap = 3 ∧
    (pushList ((Vector.mk [1, 2] 2).Reserve 3) [7, 8]).cap = 6 ∧
    ¬ (pushList ((Vector.mk [1, 2] 2).Reserve 3) [7, 8]).cap =
      ((Vector.mk [1, 2] 2).Reserve 3).cap := by
  decide

/-- C7 amended: `Reserve n` is a no-op when `n ≤ capacity` and otherwise
sets the capacity to exactly `n`, leaving size and elements unchanged;
afterwards, up to `n − size` subsequent pushes never reallocate (the
capacity stays unchanged, hence ≥ n). -/
theorem claim_C7_reserve_spec (α : Type) (v : Vector α) (n : Nat) (xs : List α) :
    (n ≤ v.cap → v.Reserve n = v) ∧
    (v.cap < n → (v.Reserve n).cap = n ∧ (v.Reserve n).elems = v.elems ∧
      (v.Reserve n).Size = v.Size) ∧
    (v.Size + xs.length ≤ n →
      (pushList (v.Reserve n) xs).cap = (v.Reserve n).cap ∧
      (pushList (v.Reserve n) xs).elems = v.elems ++ xs) := by
  refine ⟨?_, ?_, ?_⟩
  · intro h1
    unfold Vector.Reserve
    rw [if_pos h1]
  · intro h1
    unfold Vector.Reserve Vector.Size
    rw [if_neg (by omega)]
    exact ⟨rfl, rfl, rfl⟩
  · intro h1
    have hsz : (v.Reserve n).Size = v.Size := by
      unfold Vector.Size
      rw [Reserve_elems]
    have hcap : n ≤ (v.Reserve n).cap := by
      rw [Reserve_cap]
      split <;> omega
    have h2 : (v.Reserve n).Size + xs.length ≤ (v.Reserve n).cap := by
      rw [hsz]
      omega
    obtain ⟨c1, c2⟩ := pushList_no_grow xs (v.Reserve n) h2
    rw [c1, c2, Reserve_elems]
    exact ⟨rfl, rfl⟩

/-- C7 witness: `Reserve 10` on an empty vector, then one push — the
capacity stays 10 and the element lands in the reserved buffer. -/
theorem claim_C7_reserve_spec_witness :
    ((Vector.empty Nat).Reserve 10).cap = 10 ∧
    (pushList ((Vector.empty Nat).Reserve 10) [1]).cap = 10 ∧
    (pushList ((Vector.empty Nat).Reserve 10) [1]).elems = [1] := by
  have h := claim_C7_reserve_spec Nat (Vector.empty Nat) 10 [1]
  have hcap := (h.2.1 (by decide)).1
  have hpush := h.2.2 (by decide)
  refine ⟨hcap, ?_, hpush.2⟩
  rw [hpush.1, hcap]

/-- C8: `Resize n` with `n < size` keeps the first `n` elements and the
capacity and sets the size to `n`; with `n > size` it appends `n − size`
default-initialized elements after the unchanged prefix, sets the size to
`n`, keeps the capacity if `n` already fits and otherwise reserves
exactly `n`. -/
theorem claim_C8_resize_spec (α : Type) [Inhabited α] (v : Vector α) (n : Nat) :
    (n < v.Size → (v.Resize n).elems = v.elems.take n ∧
      (v.Resize n).Size = n ∧ (v.Resize n).cap = v.cap) ∧
    (v.Size < n → (v.Resize n).elems =
        v.elems ++ List.replicate (n - v.Size) default ∧
      (v.Resize n).Size = n ∧
      (n ≤ v.cap → (v.Resize n).cap = v.cap) ∧
      (v.cap < n → (v.Resize n).cap = n)) := by
  unfold Vector.Resize Vector.Size
  constructor
  · intro h1
    rw [if_pos h1]
    refine ⟨rfl, ?_, rfl⟩
    simp
    omega
  · intro h1
    rw [if_neg (by omega), if_pos h1]
    rw [Reserve_elems, Reserve_cap]
    refine ⟨rfl, ?_, ?_, ?_⟩
    · simp
      omega
    · intro h2
      rw [if_pos h2]
    · intro h2
      rw [if_neg (by omega)]

/-- C8 witness: `Resize 5` on `[1,2,3]` (capacity 3) gives `[1,2,3,0,0]`,
size 5, capacity 5; `Resize 2` on that gives `[1,2]`, size 2, capacity
still 5. -/
theorem claim_C8_resize_spec_witness :
    ((Vector.mk [1, 2, 3] 3).Resize 5).elems = [1, 2, 3, 0, 0] ∧
    ((Vector.mk [1, 2, 3] 3).Resize 5).Size = 5 ∧
    ((Vector.mk [1, 2, 3] 3).Resize 5).cap = 5 ∧
    (((Vector.mk [1, 2, 3] 3).Resize 5).Resize 2).elems = [1, 2] ∧
    (((Vector.mk [1, 2, 3] 3).Resize 5).Resize 2).Size = 2 ∧
    (((Vector.mk [1, 2, 3] 3).Resize 5).Resize 2).cap = 5 := by
  have h1 := (claim_C8_resize_spec Nat (Vector.mk [1, 2, 3] 3) 5).2 (by decide)
  have h2 := (claim_C8_resize_spec Nat ((Vector.mk [1, 2, 3] 3).Resize 5) 2).1
    (by decide)
  refine ⟨by rw [h1.1]; rfl, h1.2.1, h1.2.2.2 (by decide), ?_, h2.2.1, ?_⟩
  · rw [h2.1, h1.1]
    rfl
  · rw [h2.2.2]
    exact h1.2.2.2 (by decide)

/-- C9: inserting `x` at index `i ≤ size` and then erasing index `i`
restores the original element sequence and the original size. -/
theorem claim_C9_insert_erase_inverse (α : Type) [Inhabited α] (v : Vector α)
    (i : Nat) (x : α) (h : i ≤ v.Size) :
    ((v.Emplace i x).1.Erase i).1.elems = v.elems ∧
    ((v.Emplace i x).1.Erase i).1.Size = v.Size := by
  obtain ⟨he, _⟩ := Emplace_spec v i x h
  have hn : i ≤ v.elems.length := h
  have hsz : (v.Emplace i x).1.Size = v.Size + 1 := by
    unfold Vector.Size at h ⊢
    rw [he]
    simp
    omega
  have hi : i < (v.Emplace i x).1.Size := by omega
  have hef := Erase_fst (v.Emplace i x).1 i hi
  have htake : ((v.Emplace i x).1.elems).take i = v.elems.take i := by
    rw [he]
    exact List.take_left' (by simp; omega)
  have hdrop : ((v.Emplace i x).1.elems).drop (i + 1) = v.elems.drop i := by
    rw [he, List.append_cons]
    exact List.drop_left' (by simp; omega)
  have helems : ((v.Emplace i x).1.Erase i).1.elems = v.elems := by
    rw [hef]
    show ((v.Emplace i x).1.elems).take i ++ ((v.Emplace i x).1.elems).drop (i + 1)
      = v.elems
    rw [htake, hdrop]
    exact List.take_append_drop i v.elems
  refine ⟨helems, ?_⟩
  unfold Vector.Size
  rw [helems]

/-- C9 witness: inserting 9 at index 1 of `[1,2,3]` and erasing index 1
restores `[1,2,3]` and size 3. -/
theorem claim_C9_insert_erase_inverse_witness :
    ((((Vector.mk [1, 2, 3] 3).Emplace 1 9).1.Erase 1).1.elems = [1, 2, 3]) ∧
    ((((Vector.mk [1, 2, 3] 3).Emplace 1 9).1.Erase 1).1.Size = 3) := by
  have h := claim_C9_insert_erase_inverse Nat (Vector.mk [1, 2, 3] 3) 1 9
    (by decide)
  exact ⟨h.1, h.2⟩

/-- C10 counterexample: the reallocating interior `Emplace` of
`src/unnamed/part_000` is not a no-op on failure.  On `[7,8]` (size 2 =
capacity 2), `Emplace` at position 1 of the value 5 with copy budget 2:
the new element and the left-partition copy succeed, `MoveArgs` then
destroys the old element at slot 0, and the right-partition copy throws.
The call fails with `size_` still 2 and the capacity unchanged, but only
the element at slot 1 is still alive — slot 0 inside `[0, size_)` is
dead, the element contents are not the pre-call `[7,8]`, and the
live-slots invariant `live.length = size_` is broken — refuting "on
failure it is a no-op ... (except the documented erase exception)". -/
theorem claim_C10_counterexample :
    (EmplaceT000 (Vector.mk [7, 8] 2) 1 5 2).ok = false ∧
    (EmplaceT000 (Vector.mk [7, 8] 2) 1 5 2).size_ = 2 ∧
    (EmplaceT000 (Vector.mk [7, 8] 2) 1 5 2).cap = 2 ∧
    (EmplaceT000 (Vector.mk [7, 8] 2) 1 5 2).live = [8] ∧
    ¬ (EmplaceT000 (Vector.mk [7, 8] 2) 1 5 2).live = [7, 8] ∧
    ¬ (EmplaceT000 (Vector.mk [7, 8] 2) 1 5 2).live.length =
      (EmplaceT000 (Vector.mk [7, 8] 2) 1 5 2).size_ := by
  decide

/-- C10 amended: every modelled operation carries a valid state
(`0 ≤ size ≤ capacity`, slots `[0, size)` live) to a valid state, and the
fallible operations are no-ops on failure, EXCEPT that (a) the
buffer-reuse branch of copy assignment leaves a partially assigned prefix
when an element copy throws mid-way (size, capacity and slot liveness are
still intact), and (b) the reallocating interior `Emplace`, whose
`MoveArgs` destroys the old elements `[0, pos)` before the right-partition
transfer, leaves those slots dead inside `[0, size_)` when that transfer
throws (size, capacity unchanged, nothing leaked, but the liveness
invariant is broken) — on top of the documented in-place erase/shift
exception.  A successful `Emplace`, fallible or not, refines the pure one
and hence lands in a valid state. -/
theorem claim_C10_invariant_amended (α : Type) [Inhabited α] (v w : Vector α)
    (x : α) (n i budget : Nat) (hv : v.Inv) (hw : w.Inv) :
    (Vector.empty α).Inv ∧
    (Vector.ofSize α n).Inv ∧
    v.copyCtor.Inv ∧
    (v.moveCtor).1.Inv ∧ (v.moveCtor).2.Inv ∧
    (v.Swap w).1.Inv ∧ (v.Swap w).2.Inv ∧
    (v.moveAssign w).1.Inv ∧ (v.moveAssign w).2.Inv ∧
    (v.copyAssign w).Inv ∧
    (v.Reserve n).Inv ∧
    (v.Resize n).Inv ∧
    (v.EmplaceBack x).Inv ∧ (v.PushBack x).Inv ∧
    (0 < v.Size → v.PopBack.Inv) ∧
    (i ≤ v.Size → (v.Emplace i x).1.Inv) ∧
    (i < v.Size → (v.Erase i).1.Inv) ∧
    ((EmplaceBackT000 v x budget).ok = false →
      (EmplaceBackT000 v x budget).post = v) ∧
    ((ReserveT v n budget).ok = false → (ReserveT v n budget).post = v) ∧
    (¬ w.Size ≤ v.cap → budget < w.Size →
      (copyAssignT v w budget).post = v) ∧
    ((copyAssignT v w budget).ok = false →
      (copyAssignT v w budget).post.Size = v.Size ∧
      (copyAssignT v w budget).post.cap = v.cap) ∧
    (i ≤ v.Size → (EmplaceT000 v i x budget).ok = true →
      (EmplaceT000 v i x budget).live = (v.Emplace i x).1.elems ∧
      (EmplaceT000 v i x budget).size_ = (v.Emplace i x).1.Size ∧
      (EmplaceT000 v i x budget).cap = (v.Emplace i x).1.cap) ∧
    ((EmplaceT000 v i x budget).ok = false →
      (EmplaceT000 v i x budget).leaked = [] ∧
      (EmplaceT000 v i x budget).size_ = v.Size ∧
      (EmplaceT000 v i x budget).cap = v.cap ∧
      ((EmplaceT000 v i x budget).live = v.elems ∨
       (EmplaceT000 v i x budget).live = v.elems.drop i)) := by
  refine ⟨Inv_empty α, Inv_ofSize α n, Inv_copyCtor v, hv, Inv_empty α, hw, hv,
    hw, hv, Inv_copyAssign v w, Inv_Reserve v n hv, Inv_Resize v n hv,
    Inv_EmplaceBack v x hv, Inv_EmplaceBack v x hv, ?_, ?_, ?_, ?_, ?_, ?_, ?_,
    ?_, ?_⟩
  · intro _
    exact Inv_Resize v (v.Size - 1) hv
  · intro h1
    exact Inv_Emplace v i x hv h1
  · intro h1
    exact Inv_Erase v i hv h1
  · intro h1
    exact (EmplaceBackT000_fail v x budget h1).1
  · intro h1
    exact (ReserveT_fail v n budget h1).1
  · intro h1 h2
    rw [copyAssignT_fresh_fail v w budget h1 h2]
  · exact copyAssignT_fail v w budget
  · intro h1 h2
    obtain ⟨c1, c2, c3, _⟩ := EmplaceT000_ok_refines v i x budget h1 h2
    exact ⟨c1, c2, c3⟩
  · exact EmplaceT000_fail v i x budget

/-- C10 witness: the conjunction at a concrete vector pair, with the
fallible `Emplace` exercised on both a throwing and a successful budget. -/
theorem claim_C10_invariant_amended_witness :
    (Vector.empty Nat).Inv ∧
    (Vector.ofSize Nat 1).Inv ∧
    (Vector.mk [4] 2).copyCtor.Inv ∧
    ((Vector.mk [4] 2).moveCtor).1.Inv ∧ ((Vector.mk [4] 2).moveCtor).2.Inv ∧
    ((Vector.mk [4] 2).Swap (Vector.mk [5, 6] 4)).1.Inv ∧
    ((Vector.mk [4] 2).Swap (Vector.mk [5, 6] 4)).2.Inv ∧
    ((Vector.mk [4] 2).moveAssign (Vector.mk [5, 6] 4)).1.Inv ∧
    ((Vector.mk [4] 2).moveAssign (Vector.mk [5, 6] 4)).2.Inv ∧
    ((Vector.mk [4] 2).copyAssign (Vector.mk [5, 6] 4)).Inv ∧
    ((Vector.mk [4] 2).Reserve 1).Inv ∧
    ((Vector.mk [4] 2).Resize 1).Inv ∧
    ((Vector.mk [4] 2).EmplaceBack 9).Inv ∧ ((Vector.mk [4] 2).PushBack 9).Inv ∧
    (0 < (Vector.mk [4] 2).Size → (Vector.mk [4] 2).PopBack.Inv) ∧
    (0 ≤ (Vector.mk [4] 2).Size → ((Vector.mk [4] 2).Emplace 0 9).1.Inv) ∧
    (0 < (Vector.mk [4] 2).Size → ((Vector.mk [4] 2).Erase 0).1.Inv) ∧
    ((EmplaceBackT000 (Vector.mk [4] 2) 9 0).ok = false →
      (EmplaceBackT000 (Vector.mk [4] 2) 9 0).post = Vector.mk [4] 2) ∧
    ((ReserveT (Vector.mk [4] 2) 1 0).ok = false →
      (ReserveT (Vector.mk [4] 2) 1 0).post = Vector.mk [4] 2) ∧
    (¬ (Vector.mk [5, 6] 4).Size ≤ (Vector.mk [4] 2).cap →
      0 < (Vector.mk [5, 6] 4).Size →
      (copyAssignT (Vector.mk [4] 2) (Vector.mk [5, 6] 4) 0).post =
        Vector.mk [4] 2) ∧
    ((copyAssignT (Vector.mk [4] 2) (Vector.mk [5, 6] 4) 0).ok = false →
      (copyAssignT (Vector.mk [4] 2) (Vector.mk [5, 6] 4) 0).post.Size =
        (Vector.mk [4] 2).Size ∧
      (copyAssignT (Vector.mk [4] 2) (Vector.mk [5, 6] 4) 0).post.cap =
        (Vector.mk [4] 2).cap) ∧
    (0 ≤ (Vector.mk [4] 2).Size →
      (EmplaceT000 (Vector.mk [4] 2) 0 9 0).ok = true →
      (EmplaceT000 (Vector.mk [4] 2) 0 9 0).live =
        ((Vector.mk [4] 2).Emplace 0 9).1.elems ∧
      (EmplaceT000 (Vector.mk [4] 2) 0 9 0).size_ =
        ((Vector.mk [4] 2).Emplace 0 9).1.Size ∧
      (EmplaceT000 (Vector.mk [4] 2) 0 9 0).cap =
        ((Vector.mk [4] 2).Emplace 0 9).1.cap) ∧
    ((EmplaceT000 (Vector.mk [4] 2) 0 9 0).ok = false →
      (EmplaceT000 (Vector.mk [4] 2) 0 9 0).leaked = [] ∧
      (EmplaceT000 (Vector.mk [4] 2) 0 9 0).size_ = (Vector.mk [4] 2).Size ∧
      (EmplaceT000 (Vector.mk [4] 2) 0 9 0).cap = (Vector.mk [4] 2).cap ∧
      ((EmplaceT000 (Vector.mk [4] 2) 0 9 0).live = (Vector.mk [4] 2).elems ∨
       (EmplaceT000 (Vector.mk [4] 2) 0 9 0).live =
         (Vector.mk [4] 2).elems.drop 0)) :=
  claim_C10_invariant_amended Nat (Vector.mk [4] 2) (Vector.mk [5, 6] 4)
    9 1 0 0 (by decide) (by decide)

end AdvVec
